import Mathlib

/-!
# Verification of the `finally` scanner (`scripts/ast_analysis.py`)

The program walks a parsed source tree with a stack of lexical-scope
markers and flags every `break`/`continue`/`return` statement whose
nearest enclosing `CLEANUP`-or-safe marker is the cleanup (`finally`)
suite of a `try` statement.  This file embeds the visitor
(`Visitor.do_Try`, `do_Loop`, `do_FunctionDef`, `do_forbidden`) and the
aggregator (`Reporter.report`) as executable Lean functions and proves
the specified properties about them.
-/

namespace AstAnalysis

/-- The three scope markers of the script: `FINALLY = 'F'`, `LOOP = 'L'`,
`DEF = 'D'`. -/
inductive Marker where
  | FINALLY
  | LOOP
  | DEF
deriving DecidableEq, Repr

/-- One entry of the `findings` list: the script appends
`[self.filename, self.source, node.lineno]`. -/
structure Finding where
  filename : String
  source : String
  lineno : Nat
deriving DecidableEq, Repr

/-- The statement-level fragment of the Python AST that the visitor
distinguishes.  Expressions never contain statements, so nodes keep only
their line number and their statement-list children, in the AST's field
order (the order `ast.NodeVisitor.generic_visit` traverses them).
`Try`/`TryStar` carry `body`, `handlers` (each handler is its body's
statement list), `orelse` and `finalbody`.  `If`/`With` stand for the
constructs the visitor traverses transparently via `generic_visit`. -/
inductive Stmt where
  | Break (lineno : Nat)
  | Continue (lineno : Nat)
  | Return (lineno : Nat)
  | FunctionDef (lineno : Nat) (body : List Stmt)
  | For (lineno : Nat) (body : List Stmt) (orelse : List Stmt)
  | While (lineno : Nat) (body : List Stmt) (orelse : List Stmt)
  | Try (lineno : Nat) (body : List Stmt) (handlers : List (List Stmt))
      (orelse : List Stmt) (finalbody : List Stmt)
  | TryStar (lineno : Nat) (body : List Stmt) (handlers : List (List Stmt))
      (orelse : List Stmt) (finalbody : List Stmt)
  | If (lineno : Nat) (body : List Stmt) (orelse : List Stmt)
  | With (lineno : Nat) (body : List Stmt)
  | Pass (lineno : Nat)

/-- The mutable fields of class `Visitor`, in `__init__` order. -/
structure Visitor where
  source : String
  filename : String
  findings : List Finding
  state : List Marker
deriving DecidableEq, Repr

/-- `self.state.append(m)`: push on top of the stack (the list's end). -/
def Visitor.push (v : Visitor) (m : Marker) : Visitor :=
  { v with state := v.state ++ [m] }

/-- `self.state.pop()`: drop the top (last) entry. -/
def Visitor.pop (v : Visitor) : Visitor :=
  { v with state := v.state.dropLast }

/-- The scanning loop of `do_forbidden`:
`for i in range(len(self.state), 0, -1)` inspects `state[i-1]` and stops
at the first entry equal to `FINALLY` or to `good_state`.  `scanFrom st
good n` performs the iterations `i = n, n-1, …, 1`. -/
def scanFrom (st : List Marker) (good : Marker) : Nat → Option Marker
  | 0 => none
  | i + 1 =>
    match st.get? i with
    | some m => if m == Marker.FINALLY || m == good then some m else scanFrom st good i
    | none => scanFrom st good i

/-- `Visitor.do_forbidden(node, good_state)`.  The `good_state` argument
defaults to `None` in the script and is guarded by
`assert good_state is not None`; a `none` argument therefore raises,
modelled by the `none` result.  Otherwise: an empty stack means return
with no change; else run the scan and append a finding exactly when the
first match is `FINALLY`. -/
def do_forbidden (v : Visitor) (lineno : Nat) (good_state : Option Marker) :
    Option Visitor :=
  match good_state with
  | none => none
  | some good =>
    if v.state = [] then some v
    else
      match scanFrom v.state good v.state.length with
      | some Marker.FINALLY =>
        some { v with findings := v.findings ++ [⟨v.filename, v.source, lineno⟩] }
      | _ => some v

mutual

/-- Dispatch of `Visitor.visit` over the statement kinds: the explicit
`visit_*` methods of the script, and `generic_visit` for the rest.  The
bodies of the helper methods `do_Try`, `do_Loop` and `do_FunctionDef`
are inlined here for the termination argument; the standalone functions
of those names below restate them. -/
def visit (v : Visitor) (s : Stmt) : Option Visitor :=
  match s with
  | .Break lineno => do_forbidden v lineno (some Marker.LOOP)
  | .Continue lineno => do_forbidden v lineno (some Marker.LOOP)
  | .Return lineno => do_forbidden v lineno (some Marker.DEF)
  | .FunctionDef _ body => do
    let v1 ← visitList (Visitor.push v Marker.DEF) body
    some (Visitor.pop v1)
  | .For _ body orelse => do
    let v1 ← visitList (Visitor.push v Marker.LOOP) body
    let v2 ← visitList v1 orelse
    some (Visitor.pop v2)
  | .While _ body orelse => do
    let v1 ← visitList (Visitor.push v Marker.LOOP) body
    let v2 ← visitList v1 orelse
    some (Visitor.pop v2)
  | .Try _ b hs o f => do
    let v1 ← visitList v b
    let v2 ← visitHandlers v1 hs
    let v3 ← visitList v2 o
    let v4 ← visitList (Visitor.push v3 Marker.FINALLY) f
    some (Visitor.pop v4)
  | .TryStar _ b hs o f => do
    let v1 ← visitList v b
    let v2 ← visitHandlers v1 hs
    let v3 ← visitList v2 o
    let v4 ← visitList (Visitor.push v3 Marker.FINALLY) f
    some (Visitor.pop v4)
  | .If _ body orelse => do
    let v1 ← visitList v body
    visitList v1 orelse
  | .With _ body => visitList v body
  | .Pass _ => some v
termination_by sizeOf s

/-- Visiting the statements of a suite in order. -/
def visitList (v : Visitor) (ss : List Stmt) : Option Visitor :=
  match ss with
  | [] => some v
  | s :: rest => do
    let v1 ← visit v s
    visitList v1 rest
termination_by sizeOf ss

/-- Visiting a list of `except` handlers: `generic_visit` of an
`ExceptHandler` traverses its body. -/
def visitHandlers (v : Visitor) (hs : List (List Stmt)) : Option Visitor :=
  match hs with
  | [] => some v
  | h :: rest => do
    let v1 ← visitList v h
    visitHandlers v1 rest
termination_by sizeOf hs

end

/-- `Visitor.do_Try`: body, handlers and orelse with no marker pushed,
then `FINALLY` pushed around the finalbody and popped. -/
def do_Try (v : Visitor) (b : List Stmt) (hs : List (List Stmt))
    (o : List Stmt) (f : List Stmt) : Option Visitor := do
  let v1 ← visitList v b
  let v2 ← visitHandlers v1 hs
  let v3 ← visitList v2 o
  let v4 ← visitList (Visitor.push v3 Marker.FINALLY) f
  some (Visitor.pop v4)

/-- `Visitor.do_Loop`: push `LOOP`, `generic_visit` the node (body then
orelse), pop. -/
def do_Loop (v : Visitor) (body : List Stmt) (orelse : List Stmt) :
    Option Visitor := do
  let v1 ← visitList (Visitor.push v Marker.LOOP) body
  let v2 ← visitList v1 orelse
  some (Visitor.pop v2)

/-- `Visitor.do_FunctionDef`: push `DEF`, `generic_visit` the node, pop. -/
def do_FunctionDef (v : Visitor) (body : List Stmt) : Option Visitor := do
  let v1 ← visitList (Visitor.push v Marker.DEF) body
  some (Visitor.pop v1)

/-- `Visitor(source, filename, findings).visit(module)`: a `Module` node
has no `visit_` method, so `generic_visit` walks its body with the
initially empty marker stack. -/
def visitModule (source : String) (filename : String)
    (findings : List Finding) (body : List Stmt) : Option Visitor :=
  visitList ⟨source, filename, findings, []⟩ body

/-- The spec's description of the classification scan: look at the stack
from the innermost (top) entry toward the outermost and return the first
entry equal to `CLEANUP` (`FINALLY`) or to the safe marker, skipping
everything else. -/
def firstMatch (st : List Marker) (good : Marker) : Option Marker :=
  st.reverse.find? (fun m => m == Marker.FINALLY || m == good)

/-- The spec's verdict for one control-transfer statement in the marker
context `ctx`: a singleton finding (its line number) exactly when the
nearest `CLEANUP`-or-safe entry is `CLEANUP`; no finding when the stack is
empty or the first match is the safe marker or there is no match. -/
def specForbidden (ctx : List Marker) (good : Marker) (lineno : Nat) : List Nat :=
  match firstMatch ctx good with
  | some Marker.FINALLY => [lineno]
  | _ => []

mutual

/-- The spec's functional reading of the traversal: the context `ctx` is
the chain of markers of the lexically enclosing tracked constructs,
outermost first, and the result is the list of flagged line numbers in
traversal order. -/
def specFindings (ctx : List Marker) (s : Stmt) : List Nat :=
  match s with
  | .Break lineno => specForbidden ctx Marker.LOOP lineno
  | .Continue lineno => specForbidden ctx Marker.LOOP lineno
  | .Return lineno => specForbidden ctx Marker.DEF lineno
  | .FunctionDef _ body => specFindingsList (ctx ++ [Marker.DEF]) body
  | .For _ body orelse =>
    specFindingsList (ctx ++ [Marker.LOOP]) body ++
      specFindingsList (ctx ++ [Marker.LOOP]) orelse
  | .While _ body orelse =>
    specFindingsList (ctx ++ [Marker.LOOP]) body ++
      specFindingsList (ctx ++ [Marker.LOOP]) orelse
  | .Try _ b hs o f =>
    specFindingsList ctx b ++ specFindingsHandlers ctx hs ++
      specFindingsList ctx o ++ specFindingsList (ctx ++ [Marker.FINALLY]) f
  | .TryStar _ b hs o f =>
    specFindingsList ctx b ++ specFindingsHandlers ctx hs ++
      specFindingsList ctx o ++ specFindingsList (ctx ++ [Marker.FINALLY]) f
  | .If _ body orelse => specFindingsList ctx body ++ specFindingsList ctx orelse
  | .With _ body => specFindingsList ctx body
  | .Pass _ => []
termination_by sizeOf s

/-- `specFindings` over a suite. -/
def specFindingsList (ctx : List Marker) (ss : List Stmt) : List Nat :=
  match ss with
  | [] => []
  | s :: rest => specFindings ctx s ++ specFindingsList ctx rest
termination_by sizeOf ss

/-- `specFindings` over a list of handler bodies. -/
def specFindingsHandlers (ctx : List Marker) (hs : List (List Stmt)) : List Nat :=
  match hs with
  | [] => []
  | h :: rest => specFindingsList ctx h ++ specFindingsHandlers ctx rest
termination_by sizeOf hs

end

mutual

/-- The line numbers of all control-transfer statements of a tree in
traversal order (every such statement, flagged or not). -/
def travLines (s : Stmt) : List Nat :=
  match s with
  | .Break lineno => [lineno]
  | .Continue lineno => [lineno]
  | .Return lineno => [lineno]
  | .FunctionDef _ body => travLinesList body
  | .For _ body orelse => travLinesList body ++ travLinesList orelse
  | .While _ body orelse => travLinesList body ++ travLinesList orelse
  | .Try _ b hs o f =>
    travLinesList b ++ travLinesHandlers hs ++ travLinesList o ++ travLinesList f
  | .TryStar _ b hs o f =>
    travLinesList b ++ travLinesHandlers hs ++ travLinesList o ++ travLinesList f
  | .If _ body orelse => travLinesList body ++ travLinesList orelse
  | .With _ body => travLinesList body
  | .Pass _ => []
termination_by sizeOf s

/-- `travLines` over a suite. -/
def travLinesList (ss : List Stmt) : List Nat :=
  match ss with
  | [] => []
  | s :: rest => travLines s ++ travLinesList rest
termination_by sizeOf ss

/-- `travLines` over a list of handler bodies. -/
def travLinesHandlers (hs : List (List Stmt)) : List Nat :=
  match hs with
  | [] => []
  | h :: rest => travLinesList h ++ travLinesHandlers rest
termination_by sizeOf hs

end

/-- The finding the visitor builds for one flagged line:
`[self.filename, self.source, node.lineno]`. -/
def mkFinding (filename : String) (source : String) (lineno : Nat) : Finding :=
  ⟨filename, source, lineno⟩

/-- `source.split(b'\n')` on the source text (as its character list):
the newline-delimited pieces, one more piece than there are newlines. -/
def splitNL : List Char → List (List Char)
  | [] => [[]]
  | c :: rest =>
    if c = '\n' then [] :: splitNL rest
    else
      match splitNL rest with
      | [] => [[c]]
      | piece :: pieces => (c :: piece) :: pieces

/-- `len(source.split(b'\n'))`: the input's line count. -/
def lineCount (source : String) : Nat :=
  (splitNL source.data).length

/-- The exceptions `Reporter.report` catches around `ast.parse`. -/
inductive ParseError where
  | SyntaxError
  | RecursionError
deriving DecidableEq, Repr

/-- The accumulator fields of class `Reporter`. -/
structure Reporter where
  findings : List Finding
  lines : Nat
deriving DecidableEq, Repr

/-- `Reporter.report(source, filename, verbose)`.  Parsing is the
external `ast.parse` collaborator; its outcome is the `parsed` argument.
A `SyntaxError`/`RecursionError` returns with no change; on success the
visitor runs on the module body with the shared findings list and the
line count of the raw text is added.  A `none` result propagates a
visitor failure (which `visit_total` below rules out). -/
def report (r : Reporter) (source : String) (filename : String)
    (verbose : Nat) (parsed : Except ParseError (List Stmt)) : Option Reporter :=
  match parsed with
  | .error _ => some r
  | .ok a =>
    match visitModule source filename r.findings a with
    | none => none
    | some v => some ⟨v.findings, r.lines + lineCount source⟩

/-! ## The scanning loop agrees with the innermost-first description -/

theorem scanFrom_take (st : List Marker) (good : Marker) :
    ∀ n, n ≤ st.length →
      scanFrom st good n
        = (st.take n).reverse.find? (fun m => m == Marker.FINALLY || m == good) := by
  intro n
  induction n with
  | zero => intro _; rfl
  | succ i ih =>
    intro h
    have hi : i < st.length := h
    have hget : st[i]? = some st[i] := List.getElem?_eq_getElem hi
    have htake : (st.take (i + 1)).reverse = st[i] :: (st.take i).reverse := by
      rw [List.take_succ]
      simp [hget]
    rw [htake]
    by_cases hp : st[i] = Marker.FINALLY ∨ st[i] = good
    · have hb : (st[i] == Marker.FINALLY || st[i] == good) = true := by simpa using hp
      simp [scanFrom, hget, hp, List.find?_cons, hb]
    · have hb : (st[i] == Marker.FINALLY || st[i] == good) = false := by
        simp only [not_or] at hp
        simp [hp.1, hp.2]
      simp [scanFrom, hget, hp, List.find?_cons, hb]
      exact ih (Nat.le_of_lt hi)

theorem scanFrom_eq_firstMatch (st : List Marker) (good : Marker) :
    scanFrom st good st.length = firstMatch st good := by
  rw [scanFrom_take st good st.length (Nat.le_refl _), List.take_length, firstMatch]

/-- `do_forbidden` with a supplied safe marker: the result is `some`, and
a finding for the statement's line is appended exactly when the nearest
`FINALLY`-or-safe entry of the stack is `FINALLY`. -/
theorem do_forbidden_some (v : Visitor) (lineno : Nat) (good : Marker) :
    do_forbidden v lineno (some good)
      = some { v with findings :=
          v.findings ++ (specForbidden v.state good lineno).map (mkFinding v.filename v.source) } := by
  obtain ⟨src, fn, fs, st⟩ := v
  by_cases h : st = []
  · subst h
    simp [do_forbidden, specForbidden, firstMatch, mkFinding]
  · simp only [do_forbidden, specForbidden]
    rw [if_neg h, scanFrom_eq_firstMatch]
    cases hm : firstMatch st good with
    | none => simp [hm, mkFinding]
    | some m => cases m <;> simp [hm, mkFinding]

/-! ## The visitor refines the context-carrying specification -/

mutual

theorem visit_spec (v : Visitor) (s : Stmt) :
    visit v s = some { v with findings :=
      v.findings ++ (specFindings v.state s).map (mkFinding v.filename v.source) } := by
  cases s with
  | Break lineno =>
    simp only [visit, specFindings]; exact do_forbidden_some v lineno Marker.LOOP
  | Continue lineno =>
    simp only [visit, specFindings]; exact do_forbidden_some v lineno Marker.LOOP
  | Return lineno =>
    simp only [visit, specFindings]; exact do_forbidden_some v lineno Marker.DEF
  | FunctionDef lineno body =>
    have hb := fun w => visitList_spec w body
    simp [visit, specFindings, hb, Visitor.push, Visitor.pop]
  | For lineno body orelse =>
    have hb := fun w => visitList_spec w body
    have ho := fun w => visitList_spec w orelse
    simp [visit, specFindings, hb, ho, Visitor.push, Visitor.pop]
  | While lineno body orelse =>
    have hb := fun w => visitList_spec w body
    have ho := fun w => visitList_spec w orelse
    simp [visit, specFindings, hb, ho, Visitor.push, Visitor.pop]
  | Try lineno b hs o f =>
    have h1 := fun w => visitList_spec w b
    have h2 := fun w => visitHandlers_spec w hs
    have h3 := fun w => visitList_spec w o
    have h4 := fun w => visitList_spec w f
    simp [visit, specFindings, h1, h2, h3, h4, Visitor.push, Visitor.pop]
  | TryStar lineno b hs o f =>
    have h1 := fun w => visitList_spec w b
    have h2 := fun w => visitHandlers_spec w hs
    have h3 := fun w => visitList_spec w o
    have h4 := fun w => visitList_spec w f
    simp [visit, specFindings, h1, h2, h3, h4, Visitor.push, Visitor.pop]
  | If lineno body orelse =>
    have hb := fun w => visitList_spec w body
    have ho := fun w => visitList_spec w orelse
    simp [visit, specFindings, hb, ho]
  | With lineno body =>
    have hb := fun w => visitList_spec w body
    simp [visit, specFindings, hb]
  | Pass lineno =>
    simp [visit, specFindings]
termination_by sizeOf s

theorem visitList_spec (v : Visitor) (ss : List Stmt) :
    visitList v ss = some { v with findings :=
      v.findings ++ (specFindingsList v.state ss).map (mkFinding v.filename v.source) } := by
  cases ss with
  | nil => simp [visitList, specFindingsList]
  | cons s rest =>
    have h1 := visit_spec v s
    have h2 := fun w => visitList_spec w rest
    simp [visitList, specFindingsList, h1, h2]
termination_by sizeOf ss

theorem visitHandlers_spec (v : Visitor) (hs : List (List Stmt)) :
    visitHandlers v hs = some { v with findings :=
      v.findings ++ (specFindingsHandlers v.state hs).map (mkFinding v.filename v.source) } := by
  cases hs with
  | nil => simp [visitHandlers, specFindingsHandlers]
  | cons h rest =>
    have h1 := visitList_spec v h
    have h2 := fun w => visitHandlers_spec w rest
    simp [visitHandlers, specFindingsHandlers, h1, h2]
termination_by sizeOf hs

end

/-! ## Structure of the scan result -/

/-- Entries that match neither `FINALLY` nor the safe marker are
transparent: pushing any number of them on top of the stack leaves the
scan's verdict unchanged. -/
theorem firstMatch_append_skip (st : List Marker) (good : Marker)
    (ds : List Marker) (hd : ∀ m ∈ ds, m ≠ Marker.FINALLY ∧ m ≠ good) :
    firstMatch (st ++ ds) good = firstMatch st good := by
  unfold firstMatch
  rw [List.reverse_append, List.find?_append]
  have hnone : ds.reverse.find? (fun m => m == Marker.FINALLY || m == good) = none := by
    rw [List.find?_eq_none]
    intro x hx
    have hm := hd x (List.mem_reverse.mp hx)
    simp [hm.1, hm.2]
  rw [hnone]
  rfl

/-- A stack whose top entry is `FINALLY` always resolves to `FINALLY`. -/
theorem firstMatch_concat_finally (st : List Marker) (good : Marker) :
    firstMatch (st ++ [Marker.FINALLY]) good = some Marker.FINALLY := by
  simp [firstMatch, List.find?_cons]

/-- A stack containing neither `FINALLY` nor the safe marker yields no
match at all. -/
theorem firstMatch_eq_none (st : List Marker) (good : Marker)
    (h : ∀ m ∈ st, m ≠ Marker.FINALLY ∧ m ≠ good) :
    firstMatch st good = none := by
  unfold firstMatch
  rw [List.find?_eq_none]
  intro x hx
  have hm := h x (List.mem_reverse.mp hx)
  simp [hm.1, hm.2]

/-- The scan's verdict for one statement contributes at most its own
line number. -/
theorem specForbidden_sublist (ctx : List Marker) (good : Marker) (lineno : Nat) :
    List.Sublist (specForbidden ctx good lineno) [lineno] := by
  unfold specForbidden
  cases firstMatch ctx good with
  | none => exact List.nil_sublist _
  | some m =>
    cases m with
    | FINALLY => exact List.Sublist.refl _
    | LOOP => exact List.nil_sublist _
    | DEF => exact List.nil_sublist _

mutual

/-- Every flagged line comes from a control-transfer statement, at most
once per statement, in traversal order. -/
theorem specFindings_sublist (ctx : List Marker) (s : Stmt) :
    List.Sublist (specFindings ctx s) (travLines s) := by
  cases s with
  | Break lineno =>
    simp only [specFindings, travLines]
    exact specForbidden_sublist ctx Marker.LOOP lineno
  | Continue lineno =>
    simp only [specFindings, travLines]
    exact specForbidden_sublist ctx Marker.LOOP lineno
  | Return lineno =>
    simp only [specFindings, travLines]
    exact specForbidden_sublist ctx Marker.DEF lineno
  | FunctionDef lineno body =>
    simp only [specFindings, travLines]
    exact specFindingsList_sublist (ctx ++ [Marker.DEF]) body
  | For lineno body orelse =>
    simp only [specFindings, travLines]
    exact List.Sublist.append
      (specFindingsList_sublist (ctx ++ [Marker.LOOP]) body)
      (specFindingsList_sublist (ctx ++ [Marker.LOOP]) orelse)
  | While lineno body orelse =>
    simp only [specFindings, travLines]
    exact List.Sublist.append
      (specFindingsList_sublist (ctx ++ [Marker.LOOP]) body)
      (specFindingsList_sublist (ctx ++ [Marker.LOOP]) orelse)
  | Try lineno b hs o f =>
    simp only [specFindings, travLines]
    exact List.Sublist.append (List.Sublist.append (List.Sublist.append
      (specFindingsList_sublist ctx b)
      (specFindingsHandlers_sublist ctx hs))
      (specFindingsList_sublist ctx o))
      (specFindingsList_sublist (ctx ++ [Marker.FINALLY]) f)
  | TryStar lineno b hs o f =>
    simp only [specFindings, travLines]
    exact List.Sublist.append (List.Sublist.append (List.Sublist.append
      (specFindingsList_sublist ctx b)
      (specFindingsHandlers_sublist ctx hs))
      (specFindingsList_sublist ctx o))
      (specFindingsList_sublist (ctx ++ [Marker.FINALLY]) f)
  | If lineno body orelse =>
    simp only [specFindings, travLines]
    exact List.Sublist.append
      (specFindingsList_sublist ctx body)
      (specFindingsList_sublist ctx orelse)
  | With lineno body =>
    simp only [specFindings, travLines]
    exact specFindingsList_sublist ctx body
  | Pass lineno =>
    simp only [specFindings, travLines]
    exact List.nil_sublist _
termination_by sizeOf s

theorem specFindingsList_sublist (ctx : List Marker) (ss : List Stmt) :
    List.Sublist (specFindingsList ctx ss) (travLinesList ss) := by
  cases ss with
  | nil =>
    simp only [specFindingsList, travLinesList]
    exact List.nil_sublist _
  | cons s rest =>
    simp only [specFindingsList, travLinesList]
    exact List.Sublist.append
      (specFindings_sublist ctx s)
      (specFindingsList_sublist ctx rest)
termination_by sizeOf ss

theorem specFindingsHandlers_sublist (ctx : List Marker) (hs : List (List Stmt)) :
    List.Sublist (specFindingsHandlers ctx hs) (travLinesHandlers hs) := by
  cases hs with
  | nil =>
    simp only [specFindingsHandlers, travLinesHandlers]
    exact List.nil_sublist _
  | cons h rest =>
    simp only [specFindingsHandlers, travLinesHandlers]
    exact List.Sublist.append
      (specFindingsList_sublist ctx h)
      (specFindingsHandlers_sublist ctx rest)
termination_by sizeOf hs

end

/-- `len(source.split(b'\n'))` is one more than the number of newline
characters of the text. -/
theorem splitNL_length (cs : List Char) :
    (splitNL cs).length = cs.count '\n' + 1 := by
  induction cs with
  | nil => rfl
  | cons c rest ih =>
    by_cases hc : c = '\n'
    · subst hc
      simp [splitNL, List.count_cons, ih]
    · cases hsp : splitNL rest with
      | nil => rw [hsp] at ih; simp at ih
      | cons p ps =>
        rw [hsp] at ih
        simp only [splitNL, hc, if_neg hc, hsp, List.count_cons, List.length_cons] at ih ⊢
        simp [hc, Ne.symm hc]
        omega

/-! ## The claims -/

/-- Claim C1: for every `break` or `continue` visited with a non-empty
marker stack, the first entry equal to `CLEANUP` or `LOOP`, scanning from
the innermost (top) entry outward, decides the verdict: `LOOP` means no
finding, `CLEANUP` means a finding with this statement's line number is
appended; `FUNCTION` markers are skipped and do not stop the scan. -/
theorem break_continue_nearest_match (src fn : String) (fs : List Finding)
    (st : List Marker) (lineno : Nat) (hne : st ≠ []) :
    (firstMatch st Marker.LOOP = some Marker.LOOP →
      visit ⟨src, fn, fs, st⟩ (Stmt.Break lineno) = some ⟨src, fn, fs, st⟩ ∧
      visit ⟨src, fn, fs, st⟩ (Stmt.Continue lineno) = some ⟨src, fn, fs, st⟩) ∧
    (firstMatch st Marker.LOOP = some Marker.FINALLY →
      visit ⟨src, fn, fs, st⟩ (Stmt.Break lineno)
          = some ⟨src, fn, fs ++ [⟨fn, src, lineno⟩], st⟩ ∧
      visit ⟨src, fn, fs, st⟩ (Stmt.Continue lineno)
          = some ⟨src, fn, fs ++ [⟨fn, src, lineno⟩], st⟩) ∧
    (∀ ds : List Marker, (∀ m ∈ ds, m = Marker.DEF) →
      firstMatch (st ++ ds) Marker.LOOP = firstMatch st Marker.LOOP) := by
  refine ⟨fun h => ⟨?_, ?_⟩, fun h => ⟨?_, ?_⟩, fun ds hd => ?_⟩
  · simp [visit, do_forbidden_some, specForbidden, h, mkFinding]
  · simp [visit, do_forbidden_some, specForbidden, h, mkFinding]
  · simp [visit, do_forbidden_some, specForbidden, h, mkFinding]
  · simp [visit, do_forbidden_some, specForbidden, h, mkFinding]
  · refine firstMatch_append_skip st Marker.LOOP ds (fun m hm => ?_)
    have h := hd m hm
    subst h
    decide

/-- Claim C1 witness: a stack holding `FINALLY` below `DEF` (a cleanup
suite containing a function definition) is non-empty, resolves to
`FINALLY`, and the `break` at line 3 is flagged. -/
theorem break_continue_nearest_match_witness :
    visit ⟨"s", "f", [], [Marker.FINALLY, Marker.DEF]⟩ (Stmt.Break 3)
        = some ⟨"s", "f", [⟨"f", "s", 3⟩], [Marker.FINALLY, Marker.DEF]⟩ :=
  ((break_continue_nearest_match "s" "f" [] [Marker.FINALLY, Marker.DEF] 3
    (by decide)).2.1 (by decide)).1

/-- Claim C2: for every `return` visited with a non-empty marker stack,
the same nearest-match scan runs with `FUNCTION` as the safe marker:
`LOOP` entries are skipped, a first match of `FUNCTION` yields no
finding, a first match of `CLEANUP` yields a finding; in particular a
`return` inside a cleanup suite is flagged even when loops lie between
it and the cleanup suite. -/
theorem return_nearest_match (src fn : String) (fs : List Finding)
    (st : List Marker) (lineno : Nat) (hne : st ≠ []) :
    (firstMatch st Marker.DEF = some Marker.DEF →
      visit ⟨src, fn, fs, st⟩ (Stmt.Return lineno) = some ⟨src, fn, fs, st⟩) ∧
    (firstMatch st Marker.DEF = some Marker.FINALLY →
      visit ⟨src, fn, fs, st⟩ (Stmt.Return lineno)
          = some ⟨src, fn, fs ++ [⟨fn, src, lineno⟩], st⟩) ∧
    (∀ ls : List Marker, (∀ m ∈ ls, m = Marker.LOOP) →
      firstMatch (st ++ ls) Marker.DEF = firstMatch st Marker.DEF) ∧
    (∀ ls : List Marker, (∀ m ∈ ls, m = Marker.LOOP) →
      visit ⟨src, fn, fs, st ++ [Marker.FINALLY] ++ ls⟩ (Stmt.Return lineno)
          = some ⟨src, fn, fs ++ [⟨fn, src, lineno⟩], st ++ [Marker.FINALLY] ++ ls⟩) := by
  have skip : ∀ st' : List Marker, ∀ ls : List Marker, (∀ m ∈ ls, m = Marker.LOOP) →
      firstMatch (st' ++ ls) Marker.DEF = firstMatch st' Marker.DEF := by
    intro st' ls hl
    refine firstMatch_append_skip st' Marker.DEF ls (fun m hm => ?_)
    have h := hl m hm
    subst h
    decide
  refine ⟨fun h => ?_, fun h => ?_, skip st, fun ls hl => ?_⟩
  · simp [visit, do_forbidden_some, specForbidden, h, mkFinding]
  · simp [visit, do_forbidden_some, specForbidden, h, mkFinding]
  · have hfm : firstMatch (st ++ [Marker.FINALLY] ++ ls) Marker.DEF
        = some Marker.FINALLY := by
      rw [skip (st ++ [Marker.FINALLY]) ls hl, firstMatch_concat_finally]
    have hfm2 : firstMatch (st ++ Marker.FINALLY :: ls) Marker.DEF
        = some Marker.FINALLY := by simpa using hfm
    simp [visit, do_forbidden_some, specForbidden, hfm2, mkFinding]

/-- Claim C2 witness: inside a function, a `return` in a cleanup suite
with a loop between them (stack `DEF, FINALLY, LOOP`) is flagged at its
line. -/
theorem return_nearest_match_witness :
    visit ⟨"s", "f", [], [Marker.DEF] ++ [Marker.FINALLY] ++ [Marker.LOOP]⟩ (Stmt.Return 5)
        = some ⟨"s", "f", [⟨"f", "s", 5⟩],
            [Marker.DEF] ++ [Marker.FINALLY] ++ [Marker.LOOP]⟩ :=
  (return_nearest_match "s" "f" [] [Marker.DEF] 5 (by decide)).2.2.2
    [Marker.LOOP] (by decide)

/-- Claim C3: visiting a try-with-cleanup construct traverses body,
handlers and else-clause with no marker pushed and pushes `CLEANUP`
exactly around the cleanup suite; the grouped-exception variant
(`TryStar`) is handled identically, both through `do_Try`. -/
theorem try_cleanup_marker (v : Visitor) (lineno : Nat) (b : List Stmt)
    (hs : List (List Stmt)) (o f : List Stmt) :
    visit v (Stmt.Try lineno b hs o f)
        = some { v with findings := v.findings ++
            (specFindingsList v.state b ++ specFindingsHandlers v.state hs ++
              specFindingsList v.state o ++
              specFindingsList (v.state ++ [Marker.FINALLY]) f).map (mkFinding v.filename v.source) } ∧
    visit v (Stmt.TryStar lineno b hs o f) = visit v (Stmt.Try lineno b hs o f) ∧
    visit v (Stmt.Try lineno b hs o f) = do_Try v b hs o f := by
  refine ⟨?_, ?_, ?_⟩
  · rw [visit_spec]
    simp [specFindings]
  · simp [visit]
  · simp [visit, do_Try]

/-- Claim C4: the visitor pushes `FUNCTION` around every function body
and `LOOP` around every loop body (both `For` and `While`), popping on
exit, so the marker stack seen at every statement is exactly the chain
of markers of the lexically enclosing tracked constructs — the visitor
agrees everywhere with the context-carrying specification
`specFindings`, and it restores the stack on exit. -/
theorem marker_stack_mirrors_nesting (v : Visitor) (s : Stmt) :
    visit v s = some { v with findings :=
        v.findings ++ (specFindings v.state s).map (mkFinding v.filename v.source) } ∧
    (∀ lineno body, visit v (Stmt.FunctionDef lineno body) = do_FunctionDef v body) ∧
    (∀ lineno body orelse, visit v (Stmt.For lineno body orelse) = do_Loop v body orelse) ∧
    (∀ lineno body orelse, visit v (Stmt.While lineno body orelse) = do_Loop v body orelse) ∧
    (∀ lineno body, specFindings v.state (Stmt.FunctionDef lineno body)
        = specFindingsList (v.state ++ [Marker.DEF]) body) ∧
    (∀ lineno body orelse, specFindings v.state (Stmt.For lineno body orelse)
        = specFindingsList (v.state ++ [Marker.LOOP]) body ++
          specFindingsList (v.state ++ [Marker.LOOP]) orelse) := by
  refine ⟨visit_spec v s, ?_, ?_, ?_, ?_, ?_⟩
  · intro lineno body; simp [visit, do_FunctionDef]
  · intro lineno body orelse; simp [visit, do_Loop]
  · intro lineno body orelse; simp [visit, do_Loop]
  · intro lineno body; simp [specFindings]
  · intro lineno body orelse; simp [specFindings]

/-- Claim C5: a parse failure (syntax error or recursion-limit error)
makes `report` return normally with the reporter unchanged: no finding
appended and the cumulative line count untouched. -/
theorem parse_failure_skipped (r : Reporter) (source filename : String)
    (verbose : Nat) (e : ParseError) :
    report r source filename verbose (Except.error e) = some r := by
  rfl

/-- Claim C6: a `break`, `continue` or `return` visited with an empty
marker stack records no finding and changes nothing. -/
theorem empty_stack_ignored (src fn : String) (fs : List Finding) (lineno : Nat) :
    visit ⟨src, fn, fs, []⟩ (Stmt.Break lineno) = some ⟨src, fn, fs, []⟩ ∧
    visit ⟨src, fn, fs, []⟩ (Stmt.Continue lineno) = some ⟨src, fn, fs, []⟩ ∧
    visit ⟨src, fn, fs, []⟩ (Stmt.Return lineno) = some ⟨src, fn, fs, []⟩ := by
  refine ⟨?_, ?_, ?_⟩ <;> simp [visit, do_forbidden]

/-- Claim C7: within one parsed input the visitor only appends findings,
one line number per violating statement (a sublist of the traversal-order
control-statement lines), and when the tree's control-statement lines are
in ascending textual order the findings' lines are ascending as well. -/
theorem findings_sorted_by_line (src fn : String) (fs : List Finding)
    (bs : List Stmt) (hsorted : List.Sorted (· ≤ ·) (travLinesList bs)) :
    ∃ new : List Nat,
      visitModule src fn fs bs = some ⟨src, fn, fs ++ new.map (mkFinding fn src), []⟩ ∧
      List.Sublist new (travLinesList bs) ∧
      List.Sorted (· ≤ ·) new := by
  refine ⟨specFindingsList [] bs, ?_, specFindingsList_sublist [] bs, ?_⟩
  · rw [visitModule, visitList_spec]
  · exact List.Pairwise.sublist (specFindingsList_sublist [] bs) hsorted

/-- Claim C7 witness: a loop whose body holds a try with a `break` in
its cleanup suite and a `continue` after it — traversal lines `[4, 5]`
are sorted, and the two findings come out in that order. -/
theorem findings_sorted_by_line_witness :
    ∃ new : List Nat,
      visitModule "s" "f" []
          [Stmt.For 1 [Stmt.Try 2 [Stmt.Pass 3] [] [] [Stmt.Break 4],
            Stmt.Continue 5] []]
        = some ⟨"s", "f", [] ++ new.map (mkFinding "f" "s"), []⟩ ∧
      List.Sublist new (travLinesList
          [Stmt.For 1 [Stmt.Try 2 [Stmt.Pass 3] [] [] [Stmt.Break 4],
            Stmt.Continue 5] []]) ∧
      List.Sorted (· ≤ ·) new :=
  findings_sorted_by_line "s" "f" []
    [Stmt.For 1 [Stmt.Try 2 [Stmt.Pass 3] [] [] [Stmt.Break 4],
      Stmt.Continue 5] []]
    (by simp [travLinesList, travLines, travLinesHandlers, List.sorted_cons])

/-- Claim C8: on a successful parse, `report` runs the visitor and then
adds exactly the input's line count — the length of the newline-split of
the raw text, one more than its newline count — to the running total. -/
theorem success_adds_line_count (r : Reporter) (source filename : String)
    (verbose : Nat) (a : List Stmt) :
    ∃ rep : Reporter, report r source filename verbose (Except.ok a) = some rep ∧
      rep.lines = r.lines + lineCount source ∧
      rep.findings = r.findings ++ (specFindingsList [] a).map (mkFinding filename source) ∧
      lineCount source = source.data.count '\n' + 1 := by
  refine ⟨⟨r.findings ++ (specFindingsList [] a).map (mkFinding filename source),
    r.lines + lineCount source⟩, ?_, rfl, rfl, ?_⟩
  · rw [report, visitModule, visitList_spec]
  · exact splitNL_length source.data

/-- Claim C9: a non-empty stack holding neither `CLEANUP` nor the
statement's safe marker (for example only `FUNCTION` markers under a
`break`) produces no match and no finding. -/
theorem no_relevant_marker_no_finding (src fn : String) (fs : List Finding)
    (st : List Marker) (lineno : Nat) (hne : st ≠ [])
    (hF : Marker.FINALLY ∉ st) :
    (Marker.LOOP ∉ st →
      visit ⟨src, fn, fs, st⟩ (Stmt.Break lineno) = some ⟨src, fn, fs, st⟩ ∧
      visit ⟨src, fn, fs, st⟩ (Stmt.Continue lineno) = some ⟨src, fn, fs, st⟩ ∧
      firstMatch st Marker.LOOP = none) ∧
    (Marker.DEF ∉ st →
      visit ⟨src, fn, fs, st⟩ (Stmt.Return lineno) = some ⟨src, fn, fs, st⟩ ∧
      firstMatch st Marker.DEF = none) := by
  constructor
  · intro hL
    have hnone : firstMatch st Marker.LOOP = none :=
      firstMatch_eq_none st Marker.LOOP
        (fun m hm => ⟨fun h => hF (h ▸ hm), fun h => hL (h ▸ hm)⟩)
    exact ⟨by simp [visit, do_forbidden_some, specForbidden, hnone],
      by simp [visit, do_forbidden_some, specForbidden, hnone], hnone⟩
  · intro hD
    have hnone : firstMatch st Marker.DEF = none :=
      firstMatch_eq_none st Marker.DEF
        (fun m hm => ⟨fun h => hF (h ▸ hm), fun h => hD (h ▸ hm)⟩)
    exact ⟨by simp [visit, do_forbidden_some, specForbidden, hnone], hnone⟩

/-- Claim C9 witness: a `break` at line 3 under a lone `FUNCTION` marker
is not flagged. -/
theorem no_relevant_marker_no_finding_witness :
    visit ⟨"s", "f", [], [Marker.DEF]⟩ (Stmt.Break 3) = some ⟨"s", "f", [], [Marker.DEF]⟩ :=
  ((no_relevant_marker_no_finding "s" "f" [] [Marker.DEF] 3
    (by decide) (by decide)).1 (by decide)).1

/-- Claim C10: every dispatch site of the classification routine passes
a present (non-`None`) safe marker — `LOOP` for `break`/`continue`,
`FUNCTION` (`DEF`) for `return` — and with a present marker the
assertion branch (the `none` argument, the only failing one) is never
taken: the routine and the whole visitor always return a value. -/
theorem assert_good_state_never_fails (v : Visitor) (lineno : Nat) (s : Stmt) :
    visit v (Stmt.Break lineno) = do_forbidden v lineno (some Marker.LOOP) ∧
    visit v (Stmt.Continue lineno) = do_forbidden v lineno (some Marker.LOOP) ∧
    visit v (Stmt.Return lineno) = do_forbidden v lineno (some Marker.DEF) ∧
    (∀ good : Marker, (do_forbidden v lineno (some good)).isSome = true) ∧
    do_forbidden v lineno none = none ∧
    (visit v s).isSome = true := by
  refine ⟨by simp [visit], by simp [visit], by simp [visit], fun good => ?_, rfl, ?_⟩
  · rw [do_forbidden_some]; rfl
  · rw [visit_spec]; rfl

end AstAnalysis
